import Mathlib

/-
Shallow embedding of lcInvestor.py (joeywhelan/lcInvestor).

The program reads a configuration file (ConfigData), fetches the loan
listing from the Lending Club API, filters it against user criteria
(LendingClub.__getLoans), and then repeatedly buys loans
(while lc.hasCash() and lc.hasLoans(): lc.buy()).

Modelling conventions:
* Python numbers that the program manipulates as `decimal.Decimal` or as
  JSON numbers are modelled as exact rationals (ℚ).  Binary floating
  point rounding of JSON numbers is not modelled.
* Python exceptions are modelled with `Except` / explicit error codes.
* Dictionaries are modelled as association lists in insertion order,
  with update-in-place for an existing key.
-/

/-- A finite Python `decimal.Decimal` value: sign (true = negative),
coefficient (digits as a natural number) and exponent, so that the
numeric value is `(-1)^sign * coeff * 10^exp`.  `Decimal` preserves the
exponent (trailing zeros), so `0.10` is `⟨false, 10, -2⟩`. -/
structure Dec where
  sign : Bool
  coeff : Nat
  exp : Int
deriving DecidableEq, Repr

/-- Numeric value of a `Dec` as a rational. -/
def Dec.toRat (d : Dec) : ℚ :=
  (if d.sign then -1 else 1) * (d.coeff : ℚ) * (10 : ℚ) ^ d.exp

/-- A Python value as produced by `ConfigData.castNum` or by JSON parsing:
an int, a Decimal, or a string. -/
inductive Value where
  | vInt : Int → Value
  | vDec : Dec → Value
  | vStr : String → Value
deriving DecidableEq, Repr

/-- Python `==` on the values above: numeric equality across int/Decimal
(as in Python 2.7, where `25 == Decimal('25.0')` is `True`), string
equality on strings, `False` across numeric/string. -/
def pyEq : Value → Value → Bool
  | .vInt a, .vInt b => a == b
  | .vInt a, .vDec d => (a : ℚ) == d.toRat
  | .vDec d, .vInt a => d.toRat == (a : ℚ)
  | .vDec a, .vDec b => a.toRat == b.toRat
  | .vStr a, .vStr b => a == b
  | _, _ => false

/-- A raw loan record from the marketplace listing.  The three fields the
code always reads (`id`, `fundedAmount`, `loanAmount`) are modelled as
structure fields; the remaining named fields (the ones criteria are
matched against) are an association list. -/
structure Loan where
  id : Int
  fundedAmount : ℚ
  loanAmount : ℚ
  fields : List (String × Value)
deriving DecidableEq, Repr

/-- `loan[criterion]`: look a named field up in a loan record.  `none`
models a raised `KeyError`. -/
def lookupField (l : Loan) (k : String) : Option Value :=
  (l.fields.find? (fun p => p.1 == k)).map (fun p => p.2)

/-- Errors that can abort `LendingClub.__getLoans`'s filtering pass:
a `KeyError` from `loan[criterion]` on a missing field, or a
`ZeroDivisionError` from `loan['fundedAmount'] / loan['loanAmount']`. -/
inductive LoanErr where
  | keyError
  | zeroDiv
deriving DecidableEq, Repr

/-- Python dict assignment `d[k] = v` on a dict modelled as an
association list: update in place if the key exists, else append. -/
def dictInsert (d : List (Int × ℚ)) (k : Int) (v : ℚ) : List (Int × ℚ) :=
  if d.any (fun p => p.1 == k) then
    d.map (fun p => if p.1 == k then (k, v) else p)
  else d ++ [(k, v)]

/-- `loanDict[loan['id']] = loan['fundedAmount'] / loan['loanAmount']`,
raising `ZeroDivisionError` on a zero denominator. -/
def addLoan (loan : Loan) (d : List (Int × ℚ)) : Except LoanErr (List (Int × ℚ)) :=
  if loan.loanAmount = 0 then .error .zeroDiv
  else .ok (dictInsert d loan.id (loan.fundedAmount / loan.loanAmount))

/-- The inner `for criterion in self.config.criteria` loop of
`__getLoans`, for one loan: `rest` is the remaining criteria,
`numChecked` the counter.  On a missing field the lookup raises
(`keyError`); on a mismatch the loop breaks, leaving the dict unchanged;
when `numChecked` reaches `criteria.length` (inside the loop, i.e. while
processing the last criterion) the loan is added to the dict. -/
def checkLoan (criteria : List (String × Value)) (loan : Loan) :
    List (String × Value) → Nat → List (Int × ℚ) → Except LoanErr (List (Int × ℚ))
  | [], _, d => .ok d
  | (k, v) :: rest, numChecked, d =>
    match lookupField loan k with
    | none => .error .keyError
    | some lv =>
      if pyEq lv v then
        if numChecked + 1 = criteria.length then
          match addLoan loan d with
          | .error e => .error e
          | .ok d2 => checkLoan criteria loan rest (numChecked + 1) d2
        else checkLoan criteria loan rest (numChecked + 1) d
      else .ok d

/-- The outer `for loan in resp.json()['loans']` loop of `__getLoans`:
fold `checkLoan` over the raw listing, threading the dict. -/
def buildDict (criteria : List (String × Value)) :
    List Loan → List (Int × ℚ) → Except LoanErr (List (Int × ℚ))
  | [], d => .ok d
  | loan :: rest, d =>
    match checkLoan criteria loan criteria 0 d with
    | .error e => .error e
    | .ok d2 => buildDict criteria rest d2

/-- The comparison used by
`sorted(loanDict.items(), key=operator.itemgetter(1), reverse=True)`:
keep `a` before `b` when `a`'s funded percentage is at least `b`'s
(a stable descending sort, as CPython's `sorted` with `reverse=True`). -/
def ratioDesc (a b : Int × ℚ) : Bool := decide (b.2 ≤ a.2)

/-- `LendingClub.__getLoans`: filter the raw listing against the
criteria, building the id ↦ funded-percentage dict, then return its
entries sorted descending (stably) by funded percentage. -/
def getLoans (loans : List Loan) (criteria : List (String × Value)) :
    Except LoanErr (List (Int × ℚ)) :=
  match buildDict criteria loans [] with
  | .error e => .error e
  | .ok d => .ok (d.mergeSort ratioDesc)

/-- Specification-side predicate: the loan has every criterion field and
each equals the configured value under the code's `==`. -/
def matchesAllB (loan : Loan) (criteria : List (String × Value)) : Bool :=
  criteria.all (fun kv =>
    match lookupField loan kv.1 with
    | some w => pyEq w kv.2
    | none => false)

/-- Outcome of scanning one loan against the criteria list in order, as
the inner loop of `__getLoans` does: all matched, or the first failing
criterion's field was missing (raises), or it was present but unequal
(break). -/
inductive ScanOut where
  | allMatch
  | missing
  | mismatch
deriving DecidableEq, Repr

/-- Classify the scan of a loan against the (remaining) criteria. -/
def scanOutcome (loan : Loan) : List (String × Value) → ScanOut
  | [] => .allMatch
  | kv :: rest =>
    match lookupField loan kv.1 with
    | none => .missing
    | some w => if pyEq w kv.2 then scanOutcome loan rest else .mismatch

/-- One entry of the marketplace's portfolio list (name and id). -/
structure Portfolio where
  portfolioName : String
  portfolioId : Int
deriving DecidableEq, Repr

/-- How `LendingClub.__getPortfolioId` can fail: `unboundLocal` models the
`UnboundLocalError` Python raises at `if portfolioId is None` when the
`for` loop never assigned the local `portfolioId`; `invalidName` models
the coded `RuntimeError('Invalid Portfolio Name ...')` branch. -/
inductive PortErr where
  | unboundLocal
  | invalidName
deriving DecidableEq, Repr

/-- `LendingClub.__getPortfolioId`: scan the fetched portfolio list for
the first entry whose name equals the configured name, assigning the
local `portfolioId` and breaking.  If no entry matched, the local was
never assigned, so the subsequent `if portfolioId is None` test raises
`UnboundLocalError`; if one matched, the id (an integer, never `None`)
is returned and the `RuntimeError` branch is dead. -/
def getPortfolioId (ports : List Portfolio) (name : String) : Except PortErr Int :=
  match ports.find? (fun p => p.portfolioName == name) with
  | some p => .ok p.portfolioId
  | none => .error .unboundLocal

/-- The marketplace's response to an order submission, as
`LendingClub.__postOrder` reads it: whether `raise_for_status()` passes,
and the confirmed `investedAmount` of the single order confirmation.
(An `errors` array in the body is only logged and has no semantic
effect before `raise_for_status()`.) -/
structure OrderResp where
  httpOk : Bool
  investedAmount : ℚ
deriving DecidableEq, Repr

/-- `LendingClub.__postOrder`: log any `errors` entries, then
`raise_for_status()`; on success return the confirmed invested amount. -/
def postOrder (resp : OrderResp) : Except Unit ℚ :=
  if resp.httpOk then .ok resp.investedAmount else .error ()

/-- How `LendingClub.buy` can fail: portfolio resolution raised,
`self.loans.pop(0)` raised `IndexError` on an empty list, or the order
submission raised. -/
inductive BuyErr where
  | portErr (e : PortErr)
  | indexError
  | orderErr
deriving DecidableEq, Repr

/-- The session state `LendingClub.buy` mutates: the local cash balance,
the (already filtered and ranked) candidate list, and the memoized
portfolio id. -/
structure Session where
  cash : ℚ
  loans : List (Int × ℚ)
  portfolioId : Option Int
deriving DecidableEq, Repr

/-- `LendingClub.buy`, given the environment's responses (the portfolio
list for a first-time resolution, and the order response).  Evaluation
order follows the source line
`self.cash -= self.__postOrder(..., self.loans.pop(0)[0], ...)`:
the pop happens before the order is posted, so a failed post leaves the
candidate already removed and the cash untouched. -/
def buy (s : Session) (ports : List Portfolio) (name : String) (resp : OrderResp) :
    Session × Option BuyErr :=
  match s.portfolioId with
  | none =>
    match getPortfolioId ports name with
    | .error e => (s, some (.portErr e))
    | .ok pid =>
      let s1 : Session := { s with portfolioId := some pid }
      match s1.loans with
      | [] => (s1, some .indexError)
      | _ :: rest =>
        let s2 : Session := { s1 with loans := rest }
        match postOrder resp with
        | .error _ => (s2, some .orderErr)
        | .ok amt => ({ s2 with cash := s2.cash - amt }, none)
  | some _ =>
    match s.loans with
    | [] => (s, some .indexError)
    | _ :: rest =>
      let s2 : Session := { s with loans := rest }
      match postOrder resp with
      | .error _ => (s2, some .orderErr)
      | .ok amt => ({ s2 with cash := s2.cash - amt }, none)

/-- The configuration fields the cash test reads. -/
structure Cfg where
  reserveCash : ℚ
  investAmount : ℚ
deriving DecidableEq, Repr

/-- `LendingClub.hasCash` (cash already fetched): compute
`investMin = cash - reserveCash - investAmount` and return
`investMin >= 0`. -/
def hasCashB (cfg : Cfg) (cash : ℚ) : Bool :=
  decide (0 ≤ cash - cfg.reserveCash - cfg.investAmount)

/-- State of the top-level driver loop: local cash, remaining ranked
candidates, and the number of completed purchases. -/
structure LoopState where
  cash : ℚ
  cands : List (Int × ℚ)
  bought : Nat
deriving DecidableEq, Repr

/-- `LendingClub.hasLoans` (loans already fetched and ranked):
`len(self.loans) > 0`. -/
def hasLoansB (s : LoopState) : Bool := decide (0 < s.cands.length)

/-- The driver's `while lc.hasCash() and lc.hasLoans()` condition. -/
def loopGuard (cfg : Cfg) (s : LoopState) : Bool :=
  hasCashB cfg s.cash && hasLoansB s

/-- One successful `lc.buy()` seen from the driver loop: pop the head
candidate and decrement cash by the marketplace-confirmed amount for
this purchase (`conf s.bought`). -/
def buyStep (conf : Nat → ℚ) (s : LoopState) : LoopState :=
  match s.cands with
  | [] => s
  | _ :: rest => ⟨s.cash - conf s.bought, rest, s.bought + 1⟩

/-- `n` rounds of the driver loop `while hasCash() and hasLoans(): buy()`:
each round re-tests the condition and, if it holds, performs one buy. -/
def loopIter (cfg : Cfg) (conf : Nat → ℚ) : Nat → LoopState → LoopState
  | 0, s => s
  | n + 1, s => if loopGuard cfg s then loopIter cfg conf n (buyStep conf s) else s

/-- The `ConfigData.__init__` validation
`if self.investAmount < 25 or self.investAmount % 25 != 0: raise ...`,
for a numeric `investAmount`: `true` iff the `RuntimeError` is raised.
Python's `%` here is floored for ints and truncated for `Decimal`s; the
two agree whenever the first disjunct has not already fired (`x ≥ 25`),
so the floored remainder is used. -/
def investAmountRaises (x : ℚ) : Bool :=
  decide (x < 25) || decide (x - 25 * (⌊x / 25⌋ : ℤ) ≠ 0)

/-- Numeric value of a digit character (`'0'` ↦ 0, ..., `'9'` ↦ 9). -/
def digitVal (c : Char) : Nat := c.toNat - 48

/-- The digit character of `d < 10`. -/
def digitChar10 (d : Nat) : Char := Char.ofNat (48 + d)

/-- Big-endian digit characters read as a natural number
(leading zeros are harmless, as in Python's parsers). -/
def digitsToNat (l : List Char) : Nat :=
  l.foldl (fun a c => 10 * a + digitVal c) 0

/-- A nonempty all-digit character list. -/
def allDigits (l : List Char) : Bool := !l.isEmpty && l.all Char.isDigit

/-- The digits of `n`, least significant first, with `fuel ≥ n` rounds;
empty for `n = 0`. -/
def toDigitsRev : Nat → Nat → List Nat
  | 0, _ => []
  | fuel + 1, n => if n = 0 then [] else n % 10 :: toDigitsRev fuel (n / 10)

/-- The decimal digit characters of a natural number, as Python's
`str` writes it (so `0` is `"0"`). -/
def natRepr (n : Nat) : List Char :=
  if n = 0 then ['0'] else ((toDigitsRev n n).reverse.map digitChar10)

/-- Python `int(val)` on a (already stripped) string, as a list of
characters: an optional sign followed by one or more digits; `none`
models the `ValueError`. -/
def pyIntParseList (l : List Char) : Option Int :=
  if l.head? = some '-' then
    if allDigits l.tail then some (-(digitsToNat l.tail : Int)) else none
  else if l.head? = some '+' then
    if allDigits l.tail then some ((digitsToNat l.tail : Int)) else none
  else if allDigits l then some ((digitsToNat l : Int)) else none

/-- Python `int(val)` on a string. -/
def pyIntParse (s : String) : Option Int := pyIntParseList s.toList

/-- Python `str` of an int. -/
def pyIntToString (n : Int) : String :=
  if n < 0 then String.mk ('-' :: natRepr n.natAbs) else String.mk (natRepr n.natAbs)

/-- Split a character list at the first `'e'`/`'E'` (the exponent marker
of `decimal.Decimal`'s literal grammar). -/
def splitOnExp : List Char → List Char × Option (List Char)
  | [] => ([], none)
  | c :: rest =>
    if c = 'e' ∨ c = 'E' then ([], some rest)
    else
      let p := splitOnExp rest
      (c :: p.1, p.2)

/-- Split a character list at the first `'.'`. -/
def splitOnDot : List Char → List Char × Option (List Char)
  | [] => ([], none)
  | c :: rest =>
    if c = '.' then ([], some rest)
    else
      let p := splitOnDot rest
      (c :: p.1, p.2)

/-- Python `decimal.Decimal(val)` on a string:
`[sign] (digits [. digits] | . digits) [(e|E) [sign] digits]`, keeping
the coefficient digits and the (adjusted) exponent; `none` models
`InvalidOperation`.  The special values `NaN`/`Infinity`, and
leading/trailing whitespace, are not modelled (configuration values are
plain finite literals). -/
def pyDecParse (s : String) : Option Dec :=
  let l := s.toList
  let sign : Bool := l.head? = some '-'
  let l1 : List Char := if l.head? = some '-' ∨ l.head? = some '+' then l.tail else l
  let me := splitOnExp l1
  let eVal? : Option Int :=
    match me.2 with
    | none => some 0
    | some ep => pyIntParseList ep
  match eVal? with
  | none => none
  | some eVal =>
    let ifp := splitOnDot me.1
    let fp : List Char := (ifp.2).getD []
    if ifp.1.all Char.isDigit && fp.all Char.isDigit && !(ifp.1.isEmpty && fp.isEmpty) then
      some ⟨sign, digitsToNat (ifp.1 ++ fp), eVal - fp.length⟩
    else none

/-- `ConfigData.castNum`: try `int(val)`; on `ValueError` try
`decimal.Decimal(val)`; on `InvalidOperation` return the string. -/
def ConfigData.castNum (s : String) : Value :=
  match pyIntParse s with
  | some i => .vInt i
  | none =>
    match pyDecParse s with
    | some d => .vDec d
    | none => .vStr s

/-- Python `str` of a finite `Decimal`, following `Decimal.__str__`:
with `ds` the coefficient digits and `leftdigits = exp + len(ds)`,
use positional notation when `exp ≤ 0` and `leftdigits > -6`
(the "dot place" is `leftdigits`), otherwise scientific notation with
one digit before the point and exponent `leftdigits - 1`, written with
an explicit sign after `'E'`. -/
def decToString (d : Dec) : String :=
  let ds := natRepr d.coeff
  let leftdigits : Int := d.exp + ds.length
  let dotplace : Int := if d.exp ≤ 0 ∧ -6 < leftdigits then leftdigits else 1
  let body : List Char :=
    if dotplace ≤ 0 then
      '0' :: '.' :: (List.replicate (-dotplace).toNat '0' ++ ds)
    else if (ds.length : Int) ≤ dotplace then
      ds ++ List.replicate (dotplace - ds.length).toNat '0'
    else ds.take dotplace.toNat ++ '.' :: ds.drop dotplace.toNat
  let expPart : List Char :=
    if leftdigits = dotplace then []
    else
      'E' :: (if leftdigits - dotplace < 0 then '-' :: natRepr (leftdigits - dotplace).natAbs
              else '+' :: natRepr (leftdigits - dotplace).natAbs)
  String.mk ((if d.sign then ['-'] else []) ++ body ++ expPart)

/-- Python `str` applied to a `castNum` result. -/
def valToString : Value → String
  | .vInt n => pyIntToString n
  | .vDec d => decToString d
  | .vStr s => s

/-- C5: when no portfolio name matches, the lookup raises the
`UnboundLocalError` of the never-assigned local, not the documented
`RuntimeError('Invalid Portfolio Name ...')`; indeed the coded
`RuntimeError` branch is unreachable for every portfolio list and
name. -/
theorem c5_portfolio_lookup_unbound_local :
    getPortfolioId [⟨"Retirement", 7⟩] "Growth" = .error .unboundLocal ∧
    ∀ (ports : List Portfolio) (name : String),
      getPortfolioId ports name ≠ .error .invalidName := by
  refine ⟨rfl, ?_⟩
  intro ports name
  unfold getPortfolioId
  cases ports.find? (fun p => p.portfolioName == name) <;> simp

/-- C6: the configuration check raises on `investAmount = 30` and on
`investAmount = -25`, accepts `50`, and in general accepts a numeric
`investAmount` exactly when it is a positive multiple of 25. -/
theorem c6_invest_amount_validation :
    investAmountRaises 30 = true ∧ investAmountRaises (-25) = true ∧
    investAmountRaises 50 = false ∧
    ∀ x : ℚ, investAmountRaises x = false ↔ ∃ k : ℕ, 0 < k ∧ x = 25 * k := by
  refine ⟨?_, ?_, ?_, ?_⟩
  · simp only [investAmountRaises, Bool.or_eq_true, decide_eq_true_eq]
    right
    norm_num [Rat.floor_def]
  · simp only [investAmountRaises, Bool.or_eq_true, decide_eq_true_eq]
    left
    norm_num
  · simp only [investAmountRaises, Bool.or_eq_false_iff, decide_eq_false_iff_not, not_lt,
      not_not]
    constructor
    · norm_num
    · norm_num [Rat.floor_def]
  · intro x
    simp only [investAmountRaises, Bool.or_eq_false_iff, decide_eq_false_iff_not, not_lt,
      not_not]
    constructor
    · rintro ⟨h1, h2⟩
      have hq : (1 : ℚ) ≤ x / 25 := by
        rw [le_div_iff₀ (by norm_num : (0:ℚ) < 25)]
        linarith
      have hfl : 1 ≤ ⌊x / 25⌋ := Int.le_floor.mpr (by exact_mod_cast hq)
      have h0 : (0 : ℤ) ≤ ⌊x / 25⌋ := by omega
      refine ⟨⌊x / 25⌋.toNat, by omega, ?_⟩
      have h3 : ((⌊x / 25⌋.toNat : ℕ) : ℚ) = ((⌊x / 25⌋ : ℤ) : ℚ) := by
        exact_mod_cast Int.toNat_of_nonneg h0
      rw [h3]
      linarith
    · rintro ⟨k, hk, rfl⟩
      have hk1 : (1 : ℚ) ≤ (k : ℚ) := by exact_mod_cast hk
      have h25 : (25 : ℚ) * 1 ≤ 25 * (k : ℚ) :=
        mul_le_mul_of_nonneg_left hk1 (by norm_num)
      have hfl : ⌊(25 * (k : ℚ)) / 25⌋ = (k : ℤ) := by
        rw [show (25 * (k : ℚ)) / 25 = (k : ℚ) by field_simp]
        exact Int.floor_natCast k
      constructor
      · linarith
      · rw [hfl]
        push_cast
        ring

/-- Unfolding: one more round of the driver loop. -/
theorem loopIter_succ (cfg : Cfg) (conf : Nat → ℚ) (n : Nat) (s : LoopState) :
    loopIter cfg conf (n + 1) s =
      if loopGuard cfg s then loopIter cfg conf n (buyStep conf s) else s := rfl

/-- A state failing the loop condition is a fixed point of the loop. -/
theorem loopIter_of_guard_false {cfg : Cfg} {conf : Nat → ℚ} {s : LoopState}
    (h : loopGuard cfg s = false) : ∀ n, loopIter cfg conf n s = s := by
  intro n
  cases n with
  | zero => rfl
  | succ n => rw [loopIter_succ, h]; simp

/-- The behaviour of the driver loop from an arbitrary state, stated over
the state's fields: within `cands.length` rounds the condition turns
false, every earlier round has the condition true, pops exactly one
candidate and records exactly one purchase, and once false the loop
never moves again. -/
theorem loop_behaviour (cfg : Cfg) (conf : Nat → ℚ) :
    ∀ (cands : List (Int × ℚ)) (cash : ℚ) (bought : Nat),
    ∃ n, n ≤ cands.length ∧
      loopGuard cfg (loopIter cfg conf n ⟨cash, cands, bought⟩) = false ∧
      (∀ m, m < n →
        loopGuard cfg (loopIter cfg conf m ⟨cash, cands, bought⟩) = true ∧
        (loopIter cfg conf (m + 1) ⟨cash, cands, bought⟩).cands.length + 1 =
          (loopIter cfg conf m ⟨cash, cands, bought⟩).cands.length ∧
        (loopIter cfg conf (m + 1) ⟨cash, cands, bought⟩).bought =
          (loopIter cfg conf m ⟨cash, cands, bought⟩).bought + 1) ∧
      (∀ k, n ≤ k →
        loopIter cfg conf k ⟨cash, cands, bought⟩ =
          loopIter cfg conf n ⟨cash, cands, bought⟩) := by
  intro cands
  induction cands with
  | nil =>
    intro cash bought
    have hg : loopGuard cfg ⟨cash, [], bought⟩ = false := by
      simp [loopGuard, hasLoansB]
    exact ⟨0, Nat.le_refl 0, hg, fun m hm => absurd hm (Nat.not_lt_zero m),
      fun k _ => loopIter_of_guard_false hg k⟩
  | cons c rest ih =>
    intro cash bought
    by_cases hg : loopGuard cfg ⟨cash, c :: rest, bought⟩ = true
    · have hstep : buyStep conf ⟨cash, c :: rest, bought⟩ =
        ⟨cash - conf bought, rest, bought + 1⟩ := rfl
      obtain ⟨n, hn, hfalse, hsteps, hstable⟩ := ih (cash - conf bought) (bought + 1)
      have htrans : ∀ j, loopIter cfg conf (j + 1) ⟨cash, c :: rest, bought⟩ =
          loopIter cfg conf j ⟨cash - conf bought, rest, bought + 1⟩ := by
        intro j
        rw [loopIter_succ, hg, if_pos rfl, hstep]
      refine ⟨n + 1, Nat.succ_le_succ hn, ?_, ?_, ?_⟩
      · rw [htrans]
        exact hfalse
      · intro m hm
        cases m with
        | zero =>
          refine ⟨hg, ?_, ?_⟩
          · rw [htrans 0]
            rfl
          · rw [htrans 0]
            rfl
        | succ m' =>
          have hm' : m' < n := Nat.lt_of_succ_lt_succ hm
          obtain ⟨h1, h2, h3⟩ := hsteps m' hm'
          refine ⟨?_, ?_, ?_⟩
          · rw [htrans m']
            exact h1
          · rw [htrans (m' + 1), htrans m']
            exact h2
          · rw [htrans (m' + 1), htrans m']
            exact h3
      · intro k hk
        cases k with
        | zero => exact absurd hk (Nat.not_succ_le_zero n)
        | succ k' =>
          have hk' : n ≤ k' := Nat.le_of_succ_le_succ hk
          rw [htrans k', htrans n]
          exact hstable k' hk'
    · have hg' : loopGuard cfg ⟨cash, c :: rest, bought⟩ = false :=
        Bool.eq_false_iff.mpr hg
      exact ⟨0, Nat.zero_le _, hg', fun m hm => absurd hm (Nat.not_lt_zero m),
        fun k _ => loopIter_of_guard_false hg' k⟩

/-- C2: the driver loop `while hasCash() and hasLoans(): buy()`
terminates for every finite candidate list and every sequence of
confirmed amounts: within at most `|cands|` rounds the condition is
false and the loop is stuck there; every round before that has the
condition true, consumes exactly one candidate and performs exactly one
purchase. -/
theorem c2_driver_loop_terminates (cfg : Cfg) (conf : Nat → ℚ) (s : LoopState) :
    ∃ n, n ≤ s.cands.length ∧
      loopGuard cfg (loopIter cfg conf n s) = false ∧
      (∀ m, m < n →
        loopGuard cfg (loopIter cfg conf m s) = true ∧
        (loopIter cfg conf (m + 1) s).cands.length + 1 =
          (loopIter cfg conf m s).cands.length ∧
        (loopIter cfg conf (m + 1) s).bought =
          (loopIter cfg conf m s).bought + 1) ∧
      (∀ k, n ≤ k → loopIter cfg conf k s = loopIter cfg conf n s) := by
  have h := loop_behaviour cfg conf s.cands s.cash s.bought
  have hs : (⟨s.cash, s.cands, s.bought⟩ : LoopState) = s := rfl
  rwa [hs] at h

/-- C3: from cash 100, reserve 0, investAmount 25 and five matching
candidates, with every order confirming the requested 25, the driver
performs exactly 4 purchases and stops with cash 0 and one candidate
left because `hasCash()` turned false (0 − 0 − 25 < 0); and in general
`hasCash()` is true iff `cash − reserveCash − investAmount ≥ 0` on the
locally decremented cash. -/
theorem c3_exactly_four_purchases :
    loopIter ⟨0, 25⟩ (fun _ => 25) 4 ⟨100, [(1,1),(2,1),(3,1),(4,1),(5,1)], 0⟩ =
      ⟨0, [(5,1)], 4⟩ ∧
    loopGuard ⟨0, 25⟩
      (loopIter ⟨0, 25⟩ (fun _ => 25) 4 ⟨100, [(1,1),(2,1),(3,1),(4,1),(5,1)], 0⟩) = false ∧
    hasCashB ⟨0, 25⟩ 0 = false ∧
    loopGuard ⟨0, 25⟩ ⟨100, [(1,1),(2,1),(3,1),(4,1),(5,1)], 0⟩ = true ∧
    loopGuard ⟨0, 25⟩
      (loopIter ⟨0, 25⟩ (fun _ => 25) 1 ⟨100, [(1,1),(2,1),(3,1),(4,1),(5,1)], 0⟩) = true ∧
    loopGuard ⟨0, 25⟩
      (loopIter ⟨0, 25⟩ (fun _ => 25) 2 ⟨100, [(1,1),(2,1),(3,1),(4,1),(5,1)], 0⟩) = true ∧
    loopGuard ⟨0, 25⟩
      (loopIter ⟨0, 25⟩ (fun _ => 25) 3 ⟨100, [(1,1),(2,1),(3,1),(4,1),(5,1)], 0⟩) = true ∧
    ∀ (cfg : Cfg) (c : ℚ),
      hasCashB cfg c = true ↔ 0 ≤ c - cfg.reserveCash - cfg.investAmount := by
  have g0 : loopGuard ⟨0, 25⟩ ⟨100, [(1,1),(2,1),(3,1),(4,1),(5,1)], 0⟩ = true := by
    norm_num [loopGuard, hasCashB, hasLoansB]
  have g1 : loopGuard ⟨0, 25⟩ ⟨100 - 25, [(2,1),(3,1),(4,1),(5,1)], 1⟩ = true := by
    norm_num [loopGuard, hasCashB, hasLoansB]
  have g2 : loopGuard ⟨0, 25⟩ ⟨100 - 25 - 25, [(3,1),(4,1),(5,1)], 2⟩ = true := by
    norm_num [loopGuard, hasCashB, hasLoansB]
  have g3 : loopGuard ⟨0, 25⟩ ⟨100 - 25 - 25 - 25, [(4,1),(5,1)], 3⟩ = true := by
    norm_num [loopGuard, hasCashB, hasLoansB]
  have h1 : ∀ n, loopIter ⟨0, 25⟩ (fun _ => 25) (n + 1)
      ⟨100, [(1,1),(2,1),(3,1),(4,1),(5,1)], 0⟩ =
      loopIter ⟨0, 25⟩ (fun _ => 25) n ⟨100 - 25, [(2,1),(3,1),(4,1),(5,1)], 1⟩ := by
    intro n
    rw [loopIter_succ, g0, if_pos rfl]
    rfl
  have h2 : ∀ n, loopIter ⟨0, 25⟩ (fun _ => 25) (n + 1)
      ⟨100 - 25, [(2,1),(3,1),(4,1),(5,1)], 1⟩ =
      loopIter ⟨0, 25⟩ (fun _ => 25) n ⟨100 - 25 - 25, [(3,1),(4,1),(5,1)], 2⟩ := by
    intro n
    rw [loopIter_succ, g1, if_pos rfl]
    rfl
  have h3 : ∀ n, loopIter ⟨0, 25⟩ (fun _ => 25) (n + 1)
      ⟨100 - 25 - 25, [(3,1),(4,1),(5,1)], 2⟩ =
      loopIter ⟨0, 25⟩ (fun _ => 25) n ⟨100 - 25 - 25 - 25, [(4,1),(5,1)], 3⟩ := by
    intro n
    rw [loopIter_succ, g2, if_pos rfl]
    rfl
  have h4 : ∀ n, loopIter ⟨0, 25⟩ (fun _ => 25) (n + 1)
      ⟨100 - 25 - 25 - 25, [(4,1),(5,1)], 3⟩ =
      loopIter ⟨0, 25⟩ (fun _ => 25) n ⟨100 - 25 - 25 - 25 - 25, [(5,1)], 4⟩ := by
    intro n
    rw [loopIter_succ, g3, if_pos rfl]
    rfl
  have hrun : loopIter ⟨0, 25⟩ (fun _ => 25) 4 ⟨100, [(1,1),(2,1),(3,1),(4,1),(5,1)], 0⟩ =
      ⟨100 - 25 - 25 - 25 - 25, [(5,1)], 4⟩ := by
    rw [h1 3, h2 2, h3 1, h4 0]
    rfl
  refine ⟨?_, ?_, ?_, g0, ?_, ?_, ?_, ?_⟩
  · rw [hrun]
    norm_num
  · rw [hrun]
    norm_num [loopGuard, hasCashB, hasLoansB]
  · norm_num [hasCashB]
  · rw [h1 0]
    exact g1
  · rw [h1 1, h2 0]
    exact g2
  · rw [h1 2, h2 1, h3 0]
    exact g3
  · intro cfg c
    simp [hasCashB]

/-- C4: a successful `buy()` decrements the local cash by the
marketplace-confirmed invested amount, and whenever the confirmed amount
differs from any requested amount the balance is not the one a
requested-amount decrement would give. -/
theorem c4_cash_decrement_uses_confirmed_amount (s : Session) (ports : List Portfolio)
    (name : String) (resp : OrderResp) (pid : Int) (c : Int × ℚ) (rest : List (Int × ℚ))
    (hpid : s.portfolioId = some pid) (hloans : s.loans = c :: rest)
    (hok : resp.httpOk = true) :
    (buy s ports name resp).1.cash = s.cash - resp.investedAmount ∧
    (buy s ports name resp).2 = none ∧
    ∀ req : ℚ, resp.investedAmount ≠ req →
      (buy s ports name resp).1.cash ≠ s.cash - req := by
  obtain ⟨cash, loans, pfid⟩ := s
  simp only at hpid hloans
  subst hpid hloans
  have hb : buy ⟨cash, c :: rest, some pid⟩ ports name resp =
      (⟨cash - resp.investedAmount, rest, some pid⟩, none) := by
    simp [buy, postOrder, hok]
  rw [hb]
  refine ⟨rfl, rfl, ?_⟩
  intro req hne h
  have h' : cash - resp.investedAmount = cash - req := h
  exact hne (by linarith [h'])

/-- C9: when the order submission inside `buy()` fails, the candidate
popped at the start has already been removed from the list (and, if not
duplicated, is gone from it for the rest of the run) while the local
cash is unchanged. -/
theorem c9_failed_buy_discards_candidate (s : Session) (ports : List Portfolio)
    (name : String) (resp : OrderResp) (pid : Int) (c : Int × ℚ) (rest : List (Int × ℚ))
    (hpid : s.portfolioId = some pid) (hloans : s.loans = c :: rest)
    (hfail : resp.httpOk = false) :
    (buy s ports name resp).1.loans = rest ∧
    (buy s ports name resp).1.cash = s.cash ∧
    (buy s ports name resp).2 = some .orderErr ∧
    (c ∉ rest → c ∉ (buy s ports name resp).1.loans) := by
  obtain ⟨cash, loans, pfid⟩ := s
  simp only at hpid hloans
  subst hpid hloans
  simp [buy, postOrder, hfail]

/-- Witness for C4 at a concrete session: requested 25, confirmed 20. -/
theorem c4_cash_decrement_uses_confirmed_amount_witness :
    (buy ⟨100, [(7, 1)], some 3⟩ [] "P" ⟨true, 20⟩).1.cash = 100 - 20 ∧
    (buy ⟨100, [(7, 1)], some 3⟩ [] "P" ⟨true, 20⟩).2 = none :=
  ⟨(c4_cash_decrement_uses_confirmed_amount ⟨100, [(7, 1)], some 3⟩ [] "P" ⟨true, 20⟩
      3 (7, 1) [] rfl rfl rfl).1,
   (c4_cash_decrement_uses_confirmed_amount ⟨100, [(7, 1)], some 3⟩ [] "P" ⟨true, 20⟩
      3 (7, 1) [] rfl rfl rfl).2.1⟩

/-- Witness for C9 at a concrete session: the order post fails, the
candidate is gone, the cash is unchanged. -/
theorem c9_failed_buy_discards_candidate_witness :
    (buy ⟨100, [(7, 1)], some 3⟩ [] "P" ⟨false, 20⟩).1.loans = [] ∧
    (buy ⟨100, [(7, 1)], some 3⟩ [] "P" ⟨false, 20⟩).1.cash = 100 ∧
    (buy ⟨100, [(7, 1)], some 3⟩ [] "P" ⟨false, 20⟩).2 = some .orderErr :=
  ⟨(c9_failed_buy_discards_candidate ⟨100, [(7, 1)], some 3⟩ [] "P" ⟨false, 20⟩
      3 (7, 1) [] rfl rfl rfl).1,
   (c9_failed_buy_discards_candidate ⟨100, [(7, 1)], some 3⟩ [] "P" ⟨false, 20⟩
      3 (7, 1) [] rfl rfl rfl).2.1,
   (c9_failed_buy_discards_candidate ⟨100, [(7, 1)], some 3⟩ [] "P" ⟨false, 20⟩
      3 (7, 1) [] rfl rfl rfl).2.2.1⟩

/-- Keys of the dict after an insert: the inserted key joins the key set
(update-in-place keeps it, a fresh key is appended). -/
theorem dictInsert_keys_mem (d : List (Int × ℚ)) (k k' : Int) (v : ℚ) :
    k' ∈ (dictInsert d k v).map Prod.fst ↔ k' ∈ d.map Prod.fst ∨ k' = k := by
  unfold dictInsert
  by_cases h : d.any (fun p => p.1 == k)
  · rw [if_pos h]
    have hmem : k ∈ d.map Prod.fst := by
      rw [List.any_eq_true] at h
      obtain ⟨p, hp, hpk⟩ := h
      exact List.mem_map.mpr ⟨p, hp, by simpa using hpk⟩
    have hkeys : (d.map (fun p => if p.1 == k then (k, v) else p)).map Prod.fst =
        d.map Prod.fst := by
      rw [List.map_map]
      apply List.map_congr_left
      intro p _
      by_cases hp : p.1 = k
      · simp [Function.comp_apply, hp]
      · simp [Function.comp_apply, hp]
    rw [hkeys]
    constructor
    · exact Or.inl
    · rintro (hk | rfl)
      · exact hk
      · exact hmem
  · rw [if_neg h]
    simp

/-- An insert grows the dict by at most one entry. -/
theorem dictInsert_length (d : List (Int × ℚ)) (k : Int) (v : ℚ) :
    (dictInsert d k v).length ≤ d.length + 1 := by
  unfold dictInsert
  by_cases h : d.any (fun p => p.1 == k) <;> simp [h]

/-- The inner scan ends in `allMatch` exactly when the loan has every
criterion field with the configured value. -/
theorem scanOutcome_allMatch_iff (loan : Loan) :
    ∀ c : List (String × Value),
      scanOutcome loan c = .allMatch ↔ matchesAllB loan c = true := by
  intro c
  induction c with
  | nil => simp [scanOutcome, matchesAllB]
  | cons kv rest ih =>
    simp only [scanOutcome, matchesAllB, List.all_cons, Bool.and_eq_true]
    cases h : lookupField loan kv.1 with
    | none => simp
    | some w =>
      by_cases hw : pyEq w kv.2 = true
      · simp only [hw, if_pos, true_and]
        simpa [matchesAllB] using ih
      · simp [hw]

/-- The inner criteria loop, characterized by the scan outcome: while the
counter plus the remaining criteria account for the whole criteria list
(and some criterion remains), the loop adds the loan exactly on a full
match, raises exactly on a reached missing field, and leaves the dict
unchanged on a mismatch. -/
theorem checkLoan_eq (criteria : List (String × Value)) (loan : Loan) :
    ∀ (rest : List (String × Value)) (n : Nat) (d : List (Int × ℚ)),
      n + rest.length = criteria.length → rest ≠ [] →
      checkLoan criteria loan rest n d =
        match scanOutcome loan rest with
        | .allMatch => addLoan loan d
        | .missing => .error .keyError
        | .mismatch => .ok d := by
  intro rest
  induction rest with
  | nil =>
    intro n d _ hne
    exact absurd rfl hne
  | cons kv rest' ih =>
    intro n d hlen _
    obtain ⟨k, v⟩ := kv
    simp only [checkLoan, scanOutcome]
    cases hf : lookupField loan k with
    | none => rfl
    | some w =>
      by_cases hw : pyEq w v = true
      · simp only [hw, if_true]
        cases rest' with
        | nil =>
          have hn : n + 1 = criteria.length := by simpa using hlen
          simp only [hn, if_true, scanOutcome]
          cases ha : addLoan loan d with
          | error e => simp [ha]
          | ok d2 => simp [ha, checkLoan]
        | cons kv2 rest'' =>
          have hn : ¬(n + 1 = criteria.length) := by
            simp only [List.length_cons] at hlen
            omega
          simp only [if_neg hn]
          exact ih (n + 1) d (by simp only [List.length_cons] at hlen ⊢; omega) (by simp)
      · simp [hw]

/-- The inner loop from its start, for a nonempty criteria list. -/
theorem checkLoan_top (criteria : List (String × Value)) (hc : criteria ≠ [])
    (loan : Loan) (d : List (Int × ℚ)) :
    checkLoan criteria loan criteria 0 d =
      match scanOutcome loan criteria with
      | .allMatch => addLoan loan d
      | .missing => .error .keyError
      | .mismatch => .ok d :=
  checkLoan_eq criteria loan criteria 0 d (by simp) hc

/-- Invariant of the outer loop of `__getLoans` (nonempty criteria): when
it completes, a key is in the dict iff it was already there or is the id
of a processed loan whose scan fully matched; the dict grows by at most
one entry per loan. -/
theorem buildDict_keys (criteria : List (String × Value)) (hc : criteria ≠ []) :
    ∀ (loans : List Loan) (d out : List (Int × ℚ)),
      buildDict criteria loans d = .ok out →
      (∀ k : Int, k ∈ out.map Prod.fst ↔
        (k ∈ d.map Prod.fst ∨
          ∃ l ∈ loans, l.id = k ∧ scanOutcome l criteria = .allMatch)) ∧
      out.length ≤ d.length + loans.length := by
  intro loans
  induction loans with
  | nil =>
    intro d out h
    simp only [buildDict] at h
    cases h
    simp
  | cons loan rest ih =>
    intro d out h
    simp only [buildDict, checkLoan_top criteria hc loan d] at h
    cases hs : scanOutcome loan criteria with
    | missing => rw [hs] at h; exact absurd h (by simp)
    | mismatch =>
      rw [hs] at h
      obtain ⟨hkeys, hlen⟩ := ih d out h
      constructor
      · intro k
        rw [hkeys k]
        constructor
        · rintro (hk | ⟨l, hl, hid, hm⟩)
          · exact Or.inl hk
          · exact Or.inr ⟨l, List.mem_cons_of_mem _ hl, hid, hm⟩
        · rintro (hk | ⟨l, hl, hid, hm⟩)
          · exact Or.inl hk
          · rcases List.mem_cons.mp hl with rfl | hl'
            · rw [hs] at hm
              exact absurd hm (by simp)
            · exact Or.inr ⟨l, hl', hid, hm⟩
      · calc out.length ≤ d.length + rest.length := hlen
          _ ≤ d.length + (rest.length + 1) := by omega
    | allMatch =>
      rw [hs] at h
      simp only [addLoan] at h
      by_cases hz : loan.loanAmount = 0
      · rw [if_pos hz] at h
        exact absurd h (by simp)
      · rw [if_neg hz] at h
        obtain ⟨hkeys, hlen⟩ :=
          ih (dictInsert d loan.id (loan.fundedAmount / loan.loanAmount)) out h
        constructor
        · intro k
          rw [hkeys k, dictInsert_keys_mem]
          constructor
          · rintro ((hk | rfl) | ⟨l, hl, hid, hm⟩)
            · exact Or.inl hk
            · exact Or.inr ⟨loan, List.mem_cons_self loan rest, rfl, hs⟩
            · exact Or.inr ⟨l, List.mem_cons_of_mem _ hl, hid, hm⟩
          · rintro (hk | ⟨l, hl, hid, hm⟩)
            · exact Or.inl (Or.inl hk)
            · rcases List.mem_cons.mp hl with rfl | hl'
              · exact Or.inl (Or.inr hid.symm)
              · exact Or.inr ⟨l, hl', hid, hm⟩
        · calc out.length ≤
              (dictInsert d loan.id (loan.fundedAmount / loan.loanAmount)).length
                + rest.length := hlen
            _ ≤ (d.length + 1) + rest.length := by
                have := dictInsert_length d loan.id (loan.fundedAmount / loan.loanAmount)
                omega
            _ = d.length + (rest.length + 1) := by omega

/-- C1 (amended): for a nonempty criteria mapping and a listing with
distinct loan ids, when the filtering pass completes, a loan's id
appears in the filtered output iff the loan's same-named field equals
the configured value (under the code's `==`) for every key, and the
output is at most as long as the listing. -/
theorem c1_filter_membership_iff (loans : List Loan) (criteria : List (String × Value))
    (out : List (Int × ℚ)) (hc : criteria ≠ [])
    (hids : (loans.map Loan.id).Nodup)
    (hok : getLoans loans criteria = .ok out) :
    (∀ loan ∈ loans,
      ((∃ r : ℚ, (loan.id, r) ∈ out) ↔ matchesAllB loan criteria = true)) ∧
    out.length ≤ loans.length := by
  rw [getLoans] at hok
  cases hb : buildDict criteria loans [] with
  | error e => rw [hb] at hok; exact absurd hok (by simp)
  | ok d =>
    rw [hb] at hok
    have hout : out = d.mergeSort ratioDesc := by
      cases hok
      rfl
    obtain ⟨hkeys, hlen⟩ := buildDict_keys criteria hc loans [] d hb
    constructor
    · intro loan hl
      have hmem : (∃ r : ℚ, (loan.id, r) ∈ out) ↔ loan.id ∈ d.map Prod.fst := by
        subst hout
        constructor
        · rintro ⟨r, hr⟩
          exact List.mem_map.mpr ⟨(loan.id, r), (List.mem_mergeSort).mp hr, rfl⟩
        · intro hk
          obtain ⟨p, hp, hpk⟩ := List.mem_map.mp hk
          exact ⟨p.2, (List.mem_mergeSort).mpr (by rwa [show (loan.id, p.2) = p from
            Prod.ext hpk.symm rfl])⟩
      rw [hmem, hkeys loan.id]
      simp only [List.map_nil, List.not_mem_nil, false_or]
      rw [← scanOutcome_allMatch_iff]
      constructor
      · rintro ⟨l, hl', hid, hmatch⟩
        have : l = loan := List.inj_on_of_nodup_map hids hl' hl hid
        subst this
        exact hmatch
      · intro hmatch
        exact ⟨loan, hl, rfl, hmatch⟩
    · calc out.length = d.length := by rw [hout]; exact List.length_mergeSort d
        _ ≤ 0 + loans.length := by simpa using hlen
        _ = loans.length := by omega

/-- Counterexample to C1 as stated: with an empty criteria mapping the
code's inner loop never runs, so no loan is ever added — the loan below
vacuously matches every key of the empty mapping, yet the filtered
output is empty rather than containing it. -/
theorem c1_empty_criteria_counterexample :
    getLoans [⟨1, 50, 100, []⟩] [] = .ok [] ∧
    matchesAllB ⟨1, 50, 100, []⟩ [] = true ∧
    ¬ ∃ r : ℚ, ((1 : Int), r) ∈ ([] : List (Int × ℚ)) := by
  refine ⟨?_, rfl, ?_⟩
  · simp [getLoans, buildDict, checkLoan, List.mergeSort_nil]
  · rintro ⟨r, hr⟩
    exact (List.not_mem_nil _) hr

/-- Witness for C1 at a one-loan listing with one string criterion. -/
theorem c1_filter_membership_iff_witness :
    (∀ loan ∈ [(⟨1, 3, 1, [("grade", Value.vStr "B")]⟩ : Loan)],
      ((∃ r : ℚ, (loan.id, r) ∈ [((1 : Int), (3 : ℚ))]) ↔
        matchesAllB loan [("grade", Value.vStr "B")] = true)) ∧
    ([((1 : Int), (3 : ℚ))] : List (Int × ℚ)).length ≤
      ([(⟨1, 3, 1, [("grade", Value.vStr "B")]⟩ : Loan)]).length :=
  c1_filter_membership_iff [⟨1, 3, 1, [("grade", Value.vStr "B")]⟩]
    [("grade", Value.vStr "B")] [(1, 3)] (by simp) (by simp)
    (by simp [getLoans, buildDict, checkLoan, lookupField, pyEq, addLoan, dictInsert,
      List.mergeSort_singleton])

/-- `ratioDesc` is transitive. -/
theorem ratioDesc_trans : ∀ a b c : Int × ℚ,
    ratioDesc a b → ratioDesc b c → ratioDesc a c := by
  intro a b c hab hbc
  simp only [ratioDesc, decide_eq_true_eq] at *
  exact le_trans hbc hab

/-- `ratioDesc` is total. -/
theorem ratioDesc_total : ∀ a b : Int × ℚ, ratioDesc a b || ratioDesc b a := by
  intro a b
  simp only [ratioDesc, Bool.or_eq_true, decide_eq_true_eq]
  exact le_total b.2 a.2

/-- C8: the ranked output is descending in the funded percentage on
every adjacent pair, is a permutation of the id ↦ percentage mapping's
entries, and the sort is stable: entries already in descending order in
the mapping's iteration order (in particular ties) keep their relative
order in the output. -/
theorem c8_ranking_sorted_and_stable (loans : List Loan)
    (criteria : List (String × Value)) (d out : List (Int × ℚ))
    (hd : buildDict criteria loans [] = .ok d)
    (hok : getLoans loans criteria = .ok out) :
    out.Chain' (fun a b => b.2 ≤ a.2) ∧
    (∀ a b : Int × ℚ, [a, b].Sublist d → b.2 ≤ a.2 → [a, b].Sublist out) ∧
    out.Perm d := by
  have hout : out = d.mergeSort ratioDesc := by
    rw [getLoans, hd] at hok
    cases hok
    rfl
  subst hout
  refine ⟨?_, ?_, ?_⟩
  · have hp := List.sorted_mergeSort ratioDesc_trans ratioDesc_total d
    exact List.Pairwise.chain' (hp.imp (by
      intro a b h
      simpa [ratioDesc] using h))
  · intro a b hsub hle
    exact List.pair_sublist_mergeSort ratioDesc_trans ratioDesc_total
      (by simpa [ratioDesc] using hle) hsub
  · exact List.mergeSort_perm d ratioDesc

/-- Witness for C8 at a two-entry mapping with equal percentages (the
loans' funded percentages tie, so stability is exercised). -/
theorem c8_ranking_sorted_and_stable_witness :
    ([((1 : Int), (3 : ℚ)), ((2 : Int), (3 : ℚ))] : List (Int × ℚ)).Chain'
      (fun a b => b.2 ≤ a.2) ∧
    (∀ a b : Int × ℚ,
      [a, b].Sublist [((1 : Int), (3 : ℚ)), ((2 : Int), (3 : ℚ))] → b.2 ≤ a.2 →
      [a, b].Sublist [((1 : Int), (3 : ℚ)), ((2 : Int), (3 : ℚ))]) ∧
    ([((1 : Int), (3 : ℚ)), ((2 : Int), (3 : ℚ))] : List (Int × ℚ)).Perm
      [((1 : Int), (3 : ℚ)), ((2 : Int), (3 : ℚ))] :=
  c8_ranking_sorted_and_stable
    [⟨1, 3, 1, [("grade", Value.vStr "B")]⟩, ⟨2, 3, 1, [("grade", Value.vStr "B")]⟩]
    [("grade", Value.vStr "B")]
    [(1, 3), (2, 3)] [(1, 3), (2, 3)]
    (by simp [buildDict, checkLoan, lookupField, pyEq, addLoan, dictInsert])
    (by
      simp only [getLoans, buildDict, checkLoan, lookupField, pyEq, addLoan, dictInsert]
      simp only [List.find?, List.all_nil, List.any_nil, List.map_nil, List.nil_append]
      simp
      exact List.mergeSort_of_sorted (by simp [List.pairwise_cons, ratioDesc]))

/-- A loan carrying every criterion field never ends its scan in
`missing`. -/
theorem scanOutcome_ne_missing (loan : Loan) :
    ∀ c : List (String × Value),
      (∀ kv ∈ c, (lookupField loan kv.1).isSome = true) →
      scanOutcome loan c ≠ .missing := by
  intro c
  induction c with
  | nil => intro _; simp [scanOutcome]
  | cons kv rest ih =>
    intro h
    have hkv := h kv (List.mem_cons_self kv rest)
    simp only [scanOutcome]
    cases hf : lookupField loan kv.1 with
    | none => rw [hf] at hkv; exact absurd hkv (by simp)
    | some w =>
      by_cases hw : pyEq w kv.2 = true
      · simp only [hw, if_true]
        exact ih (fun kv' hkv' => h kv' (List.mem_cons_of_mem _ hkv'))
      · simp [hw]

/-- The filtering pass completes when every loan carries every criterion
field and no loan has a zero total amount. -/
theorem buildDict_total (crit : List (String × Value)) :
    ∀ (loans : List Loan) (d : List (Int × ℚ)),
      (∀ l ∈ loans, ∀ kv ∈ crit, (lookupField l kv.1).isSome = true) →
      (∀ l ∈ loans, l.loanAmount ≠ 0) →
      ∃ out, buildDict crit loans d = .ok out := by
  intro loans
  induction loans with
  | nil => intro d _ _; exact ⟨d, rfl⟩
  | cons loan rest ih =>
    intro d hkeys hnz
    have hkeys' := fun l hl => hkeys l (List.mem_cons_of_mem _ hl)
    have hnz' := fun l hl => hnz l (List.mem_cons_of_mem _ hl)
    by_cases hcrit : crit = []
    · subst hcrit
      obtain ⟨out, hout⟩ := ih d hkeys' hnz'
      exact ⟨out, by simpa [buildDict, checkLoan] using hout⟩
    · have hne := scanOutcome_ne_missing loan crit (hkeys loan (List.mem_cons_self loan rest))
      cases hs : scanOutcome loan crit with
      | missing => exact absurd hs hne
      | mismatch =>
        obtain ⟨out, hout⟩ := ih d hkeys' hnz'
        refine ⟨out, ?_⟩
        simp only [buildDict, checkLoan_top crit hcrit, hs]
        exact hout
      | allMatch =>
        obtain ⟨out, hout⟩ :=
          ih (dictInsert d loan.id (loan.fundedAmount / loan.loanAmount)) hkeys' hnz'
        refine ⟨out, ?_⟩
        simp only [buildDict, checkLoan_top crit hcrit, hs, addLoan,
          if_neg (hnz loan (List.mem_cons_self loan rest))]
        exact hout

/-- C10 (amended): a loan whose criteria scan reaches a missing field is
never treated as a silent non-match — the inner loop raises `KeyError`
and the whole pass aborts; and when every loan carries every configured
criterion field (and no zero loan amounts occur), the pass completes.
(A loan that fails an earlier criterion short-circuits, so a missing
later field is not reached — see the counterexample.) -/
theorem c10_missing_field_aborts (criteria : List (String × Value)) (loan : Loan)
    (hm : scanOutcome loan criteria = .missing) :
    (∀ d, checkLoan criteria loan criteria 0 d = .error .keyError) ∧
    getLoans [loan] criteria = .error .keyError ∧
    (∀ (loans : List Loan) (crit : List (String × Value)),
      (∀ l ∈ loans, ∀ kv ∈ crit, (lookupField l kv.1).isSome = true) →
      (∀ l ∈ loans, l.loanAmount ≠ 0) →
      ∃ out, getLoans loans crit = .ok out) := by
  have hc : criteria ≠ [] := by
    intro h
    rw [h] at hm
    exact absurd hm (by simp [scanOutcome])
  have hA : ∀ d, checkLoan criteria loan criteria 0 d = .error .keyError := by
    intro d
    rw [checkLoan_top criteria hc, hm]
  refine ⟨hA, ?_, ?_⟩
  · simp only [getLoans, buildDict, hA]
  · intro loans crit hkeys hnz
    obtain ⟨d, hd⟩ := buildDict_total crit loans [] hkeys hnz
    exact ⟨d.mergeSort ratioDesc, by simp only [getLoans, hd]⟩

/-- Counterexample to C10 as stated: this loan lacks the field `"b"`
named by the second criterion, yet the pass does not abort — the first
criterion mismatches, the inner loop breaks before `loan["b"]` is
evaluated, and filtering completes with the loan silently excluded. -/
theorem c10_shortcircuit_counterexample :
    lookupField ⟨1, 3, 1, [("a", Value.vStr "x")]⟩ "b" = none ∧
    getLoans [⟨1, 3, 1, [("a", Value.vStr "x")]⟩]
      [("a", Value.vStr "y"), ("b", Value.vStr "z")] = .ok [] := by
  refine ⟨rfl, ?_⟩
  simp [getLoans, buildDict, checkLoan, lookupField, pyEq, List.mergeSort_nil]

/-- Witness for C10 at a loan lacking the only criterion's field. -/
theorem c10_missing_field_aborts_witness :
    (∀ d, checkLoan [("a", Value.vStr "y")] ⟨1, 3, 1, []⟩ [("a", Value.vStr "y")] 0 d =
      .error .keyError) ∧
    getLoans [(⟨1, 3, 1, []⟩ : Loan)] [("a", Value.vStr "y")] = .error .keyError ∧
    (∀ (loans : List Loan) (crit : List (String × Value)),
      (∀ l ∈ loans, ∀ kv ∈ crit, (lookupField l kv.1).isSome = true) →
      (∀ l ∈ loans, l.loanAmount ≠ 0) →
      ∃ out, getLoans loans crit = .ok out) :=
  c10_missing_field_aborts [("a", Value.vStr "y")] ⟨1, 3, 1, []⟩ rfl

/-- Little-endian digit list read back as a natural number. -/
def ofDigitsNat : List Nat → Nat
  | [] => 0
  | d :: rest => d + 10 * ofDigitsNat rest

/-- The digit character of `d < 10` is a digit. -/
theorem isDigit_digitChar10 {d : Nat} (h : d < 10) : (digitChar10 d).isDigit = true := by
  interval_cases d <;> decide

/-- Reading the digit character of `d < 10` back gives `d`. -/
theorem digitVal_digitChar10 {d : Nat} (h : d < 10) : digitVal (digitChar10 d) = d := by
  interval_cases d <;> decide

/-- A digit character is none of the sign, point and exponent markers. -/
theorem isDigit_ne_special {c : Char} (h : c.isDigit = true) :
    c ≠ '-' ∧ c ≠ '+' ∧ c ≠ '.' ∧ c ≠ 'e' ∧ c ≠ 'E' := by
  refine ⟨?_, ?_, ?_, ?_, ?_⟩ <;> rintro rfl <;> exact absurd h (by decide)

/-- Every entry of `toDigitsRev` is a digit value. -/
theorem toDigitsRev_lt10 : ∀ (fuel n : Nat), ∀ d ∈ toDigitsRev fuel n, d < 10 := by
  intro fuel
  induction fuel with
  | zero => intro n d hd; exact absurd hd (by simp [toDigitsRev])
  | succ fuel ih =>
    intro n d hd
    rw [toDigitsRev] at hd
    by_cases hn : n = 0
    · rw [if_pos hn] at hd
      exact absurd hd (by simp)
    · rw [if_neg hn] at hd
      rcases List.mem_cons.mp hd with rfl | hd'
      · exact Nat.mod_lt n (by omega)
      · exact ih (n / 10) d hd'

/-- `toDigitsRev` with enough fuel is a digit expansion of `n`. -/
theorem ofDigitsNat_toDigitsRev : ∀ (fuel n : Nat), n ≤ fuel →
    ofDigitsNat (toDigitsRev fuel n) = n := by
  intro fuel
  induction fuel with
  | zero =>
    intro n hn
    have : n = 0 := by omega
    subst this
    rfl
  | succ fuel ih =>
    intro n hn
    rw [toDigitsRev]
    by_cases hz : n = 0
    · rw [if_pos hz, hz]
      rfl
    · rw [if_neg hz]
      have hdiv : n / 10 ≤ fuel := by
        have := Nat.div_lt_self (Nat.pos_of_ne_zero hz) (by omega : 1 < 10)
        omega
      show n % 10 + 10 * ofDigitsNat (toDigitsRev fuel (n / 10)) = n
      rw [ih (n / 10) hdiv]
      omega

/-- Folding the big-endian digit characters with a given accumulator. -/
theorem foldl_digits_acc (L : List Nat) : ∀ a : Nat,
    L.reverse.foldl (fun x d => 10 * x + d) a = a * 10 ^ L.length + ofDigitsNat L := by
  induction L with
  | nil => intro a; simp [ofDigitsNat]
  | cons d L ih =>
    intro a
    rw [List.reverse_cons, List.foldl_append]
    show 10 * (L.reverse.foldl (fun x d => 10 * x + d) a) + d =
      a * 10 ^ (d :: L).length + ofDigitsNat (d :: L)
    rw [ih a]
    show 10 * (a * 10 ^ L.length + ofDigitsNat L) + d =
      a * 10 ^ (L.length + 1) + (d + 10 * ofDigitsNat L)
    ring

/-- Reading mapped digit characters equals folding the digit values. -/
theorem foldl_map_digitChar10 : ∀ (L : List Nat), (∀ d ∈ L, d < 10) → ∀ a : Nat,
    (L.map digitChar10).foldl (fun x c => 10 * x + digitVal c) a =
      L.foldl (fun x d => 10 * x + d) a := by
  intro L
  induction L with
  | nil => intro _ a; rfl
  | cons d L ih =>
    intro h a
    simp only [List.map_cons, List.foldl_cons]
    rw [digitVal_digitChar10 (h d (List.mem_cons_self d L))]
    exact ih (fun x hx => h x (List.mem_cons_of_mem _ hx)) _

/-- Round trip: reading back the decimal representation of `n` gives
`n`. -/
theorem digitsToNat_natRepr (n : Nat) : digitsToNat (natRepr n) = n := by
  unfold natRepr
  by_cases hz : n = 0
  · rw [if_pos hz, hz]
    rfl
  · rw [if_neg hz]
    show ((toDigitsRev n n).reverse.map digitChar10).foldl (fun x c => 10 * x + digitVal c) 0 = n
    rw [foldl_map_digitChar10 _ (fun d hd => toDigitsRev_lt10 n n d (List.mem_reverse.mp hd)) 0]
    rw [foldl_digits_acc (toDigitsRev n n) 0]
    rw [ofDigitsNat_toDigitsRev n n (Nat.le_refl n)]
    simp

/-- The decimal representation is never empty. -/
theorem natRepr_ne_nil (n : Nat) : natRepr n ≠ [] := by
  unfold natRepr
  by_cases hz : n = 0
  · rw [if_pos hz]
    simp
  · rw [if_neg hz]
    have : toDigitsRev n n ≠ [] := by
      cases n with
      | zero => exact absurd rfl hz
      | succ m =>
        rw [toDigitsRev, if_neg hz]
        simp
    simpa using this

/-- Every character of the decimal representation is a digit. -/
theorem natRepr_all_digits (n : Nat) : ∀ c ∈ natRepr n, c.isDigit = true := by
  unfold natRepr
  by_cases hz : n = 0
  · rw [if_pos hz]
    intro c hc
    rw [List.mem_singleton.mp hc]
    decide
  · rw [if_neg hz]
    intro c hc
    obtain ⟨d, hd, rfl⟩ := List.mem_map.mp hc
    exact isDigit_digitChar10 (toDigitsRev_lt10 n n d (List.mem_reverse.mp hd))

/-- The decimal representation passes the all-digit test. -/
theorem allDigits_natRepr (n : Nat) : allDigits (natRepr n) = true := by
  unfold allDigits
  rw [Bool.and_eq_true, List.all_eq_true]
  exact ⟨by simpa using natRepr_ne_nil n, natRepr_all_digits n⟩

/-- An integer parse fails as soon as the list holds a character that is
neither a digit nor a leading sign. -/
theorem pyIntParseList_none {l : List Char} (c : Char) (hc : c ∈ l)
    (hd : c.isDigit = false) (hm : c ≠ '-') (hp : c ≠ '+') :
    pyIntParseList l = none := by
  have hbad : ∀ l' : List Char, c ∈ l' → allDigits l' = false := by
    intro l' hc'
    unfold allDigits
    rw [Bool.and_eq_false_iff]
    right
    rw [List.all_eq_false]
    exact ⟨c, hc', by simp [hd]⟩
  unfold pyIntParseList
  by_cases h1 : l.head? = some '-'
  · rw [if_pos h1]
    have hct : c ∈ l.tail := by
      cases l with
      | nil => exact absurd hc (by simp)
      | cons a l' =>
        have : a = '-' := by simpa using h1
        subst this
        rcases List.mem_cons.mp hc with rfl | h
        · exact absurd rfl hm
        · exact h
    rw [hbad _ hct]
    simp
  · rw [if_neg h1]
    by_cases h2 : l.head? = some '+'
    · rw [if_pos h2]
      have hct : c ∈ l.tail := by
        cases l with
        | nil => exact absurd hc (by simp)
        | cons a l' =>
          have : a = '+' := by simpa using h2
          subst this
          rcases List.mem_cons.mp hc with rfl | h
          · exact absurd rfl hp
          · exact h
      rw [hbad _ hct]
      simp
    · rw [if_neg h2, hbad _ hc]
      simp

/-- Parsing a bare decimal representation yields the number. -/
theorem pyIntParseList_natRepr (n : Nat) : pyIntParseList (natRepr n) = some (n : Int) := by
  obtain ⟨c, cs, hc⟩ : ∃ c cs, natRepr n = c :: cs := by
    cases h : natRepr n with
    | nil => exact absurd h (natRepr_ne_nil n)
    | cons c cs => exact ⟨c, cs, rfl⟩
  have hcd : c.isDigit = true := natRepr_all_digits n c (by rw [hc]; exact List.mem_cons_self c cs)
  obtain ⟨hm, hp, _, _, _⟩ := isDigit_ne_special hcd
  unfold pyIntParseList
  rw [hc]
  rw [if_neg (by simp [hm]), if_neg (by simp [hp]), if_pos (by rw [← hc]; exact allDigits_natRepr n)]
  rw [← hc, digitsToNat_natRepr]

/-- Parsing a sign followed by a decimal representation. -/
theorem pyIntParseList_neg_natRepr (n : Nat) :
    pyIntParseList ('-' :: natRepr n) = some (-(n : Int)) := by
  unfold pyIntParseList
  rw [if_pos (by simp)]
  show (if allDigits (natRepr n) = true then
    some (-(digitsToNat (natRepr n) : Int)) else none) = some (-(n : Int))
  rw [if_pos (allDigits_natRepr n), digitsToNat_natRepr]

/-- Parsing an explicit plus sign followed by a decimal representation. -/
theorem pyIntParseList_pos_natRepr (n : Nat) :
    pyIntParseList ('+' :: natRepr n) = some ((n : Int)) := by
  unfold pyIntParseList
  rw [if_neg (by simp), if_pos (by simp)]
  show (if allDigits (natRepr n) = true then
    some ((digitsToNat (natRepr n) : Int)) else none) = some ((n : Int))
  rw [if_pos (allDigits_natRepr n), digitsToNat_natRepr]

/-- Round trip for Python's `str`/`int` on integers. -/
theorem pyIntParse_pyIntToString (n : Int) : pyIntParse (pyIntToString n) = some n := by
  unfold pyIntParse pyIntToString
  by_cases hn : n < 0
  · rw [if_pos hn]
    show pyIntParseList ('-' :: natRepr n.natAbs) = some n
    rw [pyIntParseList_neg_natRepr]
    congr 1
    omega
  · rw [if_neg hn]
    show pyIntParseList (natRepr n.natAbs) = some n
    rw [pyIntParseList_natRepr]
    congr 1
    omega

/-- A list with no exponent marker is not split. -/
theorem splitOnExp_no_marker {l : List Char} (h : ∀ c ∈ l, c ≠ 'e' ∧ c ≠ 'E') :
    splitOnExp l = (l, none) := by
  induction l with
  | nil => rfl
  | cons c rest ih =>
    obtain ⟨h1, h2⟩ := h c (List.mem_cons_self c rest)
    rw [splitOnExp, if_neg (by tauto)]
    rw [ih (fun x hx => h x (List.mem_cons_of_mem _ hx))]

/-- Splitting at the first exponent marker. -/
theorem splitOnExp_marker {l1 : List Char} (l2 : List Char)
    (h : ∀ c ∈ l1, c ≠ 'e' ∧ c ≠ 'E') :
    splitOnExp (l1 ++ 'E' :: l2) = (l1, some l2) := by
  induction l1 with
  | nil =>
    rw [List.nil_append, splitOnExp, if_pos (by tauto)]
  | cons c rest ih =>
    obtain ⟨h1, h2⟩ := h c (List.mem_cons_self c rest)
    rw [List.cons_append, splitOnExp, if_neg (by tauto)]
    rw [ih (fun x hx => h x (List.mem_cons_of_mem _ hx))]

/-- A list with no point is not split. -/
theorem splitOnDot_no_dot {l : List Char} (h : ∀ c ∈ l, c ≠ '.') :
    splitOnDot l = (l, none) := by
  induction l with
  | nil => rfl
  | cons c rest ih =>
    rw [splitOnDot, if_neg (h c (List.mem_cons_self c rest))]
    rw [ih (fun x hx => h x (List.mem_cons_of_mem _ hx))]

/-- Splitting at the first point. -/
theorem splitOnDot_dot {l1 : List Char} (l2 : List Char) (h : ∀ c ∈ l1, c ≠ '.') :
    splitOnDot (l1 ++ '.' :: l2) = (l1, some l2) := by
  induction l1 with
  | nil => rw [List.nil_append, splitOnDot, if_pos rfl]
  | cons c rest ih =>
    rw [List.cons_append, splitOnDot, if_neg (h c (List.mem_cons_self c rest))]
    rw [ih (fun x hx => h x (List.mem_cons_of_mem _ hx))]

/-- Leading zero characters do not change the value read. -/
theorem digitsToNat_replicate_zero (k : Nat) (l : List Char) :
    digitsToNat (List.replicate k '0' ++ l) = digitsToNat l := by
  induction k with
  | zero => rfl
  | succ k ih =>
    rw [List.replicate_succ, List.cons_append]
    show (List.replicate k '0' ++ l).foldl (fun a c => 10 * a + digitVal c) (10 * 0 + digitVal '0') =
      digitsToNat l
    have : 10 * 0 + digitVal '0' = 0 := by decide
    rw [this]
    exact ih

/-- Parsing a decimal literal assembled from an optional sign, integer
digits, an optional point with fraction digits, and an optional signed
exponent recovers the sign, the concatenated coefficient digits and the
adjusted exponent. -/
theorem pyDecParse_build (sg : Bool) (ip fp : List Char) (dot : Bool) (ex : Option Int)
    (hip : ∀ c ∈ ip, c.isDigit = true) (hfp : ∀ c ∈ fp, c.isDigit = true)
    (hne : ip ≠ []) (hdot : dot = false → fp = []) :
    pyDecParse (String.mk ((if sg then ['-'] else []) ++
      ((ip ++ if dot then '.' :: fp else []) ++
        (match ex with
         | none => []
         | some m => 'E' :: (if m < 0 then '-' :: natRepr m.natAbs
                             else '+' :: natRepr m.natAbs))))) =
      some ⟨sg, digitsToNat (ip ++ fp), (ex.getD 0) - fp.length⟩ := by
  obtain ⟨c0, ip', rfl⟩ : ∃ c0 ip', ip = c0 :: ip' := by
    cases ip with
    | nil => exact absurd rfl hne
    | cons c0 ip' => exact ⟨c0, ip', rfl⟩
  have hc0 : c0.isDigit = true := hip c0 (List.mem_cons_self c0 ip')
  obtain ⟨hm0, hp0, _, _, _⟩ := isDigit_ne_special hc0
  have hM_noE : ∀ c ∈ (c0 :: ip') ++ (if dot then '.' :: fp else []),
      c ≠ 'e' ∧ c ≠ 'E' := by
    intro c hc
    rcases List.mem_append.mp hc with h | h
    · obtain ⟨_, _, _, h4, h5⟩ := isDigit_ne_special (hip c h)
      exact ⟨h4, h5⟩
    · by_cases hd : dot = true
      · rw [if_pos hd] at h
        rcases List.mem_cons.mp h with rfl | h'
        · exact ⟨by decide, by decide⟩
        · obtain ⟨_, _, _, h4, h5⟩ := isDigit_ne_special (hfp c h')
          exact ⟨h4, h5⟩
      · rw [if_neg hd] at h
        exact absurd h (by simp)
  have hip_nodot : ∀ c ∈ c0 :: ip', c ≠ '.' := by
    intro c hc
    exact (isDigit_ne_special (hip c hc)).2.2.1
  have hsplitD : splitOnDot ((c0 :: ip') ++ (if dot then '.' :: fp else [])) =
      (c0 :: ip', if dot then some fp else none) := by
    by_cases hd : dot = true
    · rw [if_pos hd, if_pos hd]
      exact splitOnDot_dot fp hip_nodot
    · rw [if_neg hd, if_neg hd, List.append_nil]
      exact splitOnDot_no_dot hip_nodot
  have hallip : (c0 :: ip').all Char.isDigit = true := List.all_eq_true.mpr hip
  have hallfp : fp.all Char.isDigit = true := List.all_eq_true.mpr hfp
  have hfp' : (if dot then some fp else none).getD [] = fp := by
    by_cases hd : dot = true
    · rw [if_pos hd]
      rfl
    · rw [if_neg hd, hdot (by simpa using hd)]
      rfl
  have hsplitE : splitOnExp (c0 :: (ip' ++ (if dot then '.' :: fp else []))) =
      (c0 :: (ip' ++ (if dot then '.' :: fp else [])), none) := by
    have := splitOnExp_no_marker hM_noE
    simpa using this
  have hsplitD' : splitOnDot (c0 :: (ip' ++ (if dot then '.' :: fp else []))) =
      (c0 :: ip', if dot then some fp else none) := by
    simpa using hsplitD
  cases ex with
  | none =>
    cases sg with
    | false =>
      unfold pyDecParse
      simp [hsplitE, hsplitD', hm0, hp0, hallip, hallfp, hfp', String.toList]
    | true =>
      unfold pyDecParse
      simp [hsplitE, hsplitD', hm0, hp0, hallip, hallfp, hfp', String.toList]
  | some m =>
    have heval : pyIntParseList (if m < 0 then '-' :: natRepr m.natAbs
        else '+' :: natRepr m.natAbs) = some m := by
      by_cases hm : m < 0
      · rw [if_pos hm, pyIntParseList_neg_natRepr]
        congr 1
        omega
      · rw [if_neg hm, pyIntParseList_pos_natRepr]
        congr 1
        omega
    have hsplitE2 : splitOnExp (c0 :: (ip' ++ ((if dot then '.' :: fp else []) ++
        'E' :: (if m < 0 then '-' :: natRepr m.natAbs else '+' :: natRepr m.natAbs)))) =
        ((c0 :: ip') ++ (if dot then '.' :: fp else []),
          some (if m < 0 then '-' :: natRepr m.natAbs else '+' :: natRepr m.natAbs)) := by
      have := splitOnExp_marker
        (if m < 0 then '-' :: natRepr m.natAbs else '+' :: natRepr m.natAbs) hM_noE
      simpa using this
    cases sg with
    | false =>
      unfold pyDecParse
      simp [hsplitE2, heval, hsplitD', hm0, hp0, hallip, hallfp, hfp', String.toList]
    | true =>
      unfold pyDecParse
      simp [hsplitE2, heval, hsplitD', hm0, hp0, hallip, hallfp, hfp', String.toList]

/-- Shape of `Decimal.__str__`'s output for a nonzero exponent: it is a
signed literal made of digit runs, a point and/or an exponent marker
whose parse data recover the original coefficient and exponent.  (With
exponent 0 the output would be a bare integer literal instead.) -/
theorem decToString_shape (d : Dec) (h : d.exp ≠ 0) :
    ∃ (ip fp : List Char) (dot : Bool) (ex : Option Int),
      (∀ c ∈ ip, c.isDigit = true) ∧ (∀ c ∈ fp, c.isDigit = true) ∧ ip ≠ [] ∧
      (dot = false → fp = []) ∧
      (dot = true ∨ ex ≠ none) ∧
      digitsToNat (ip ++ fp) = d.coeff ∧
      (ex.getD 0) - (fp.length : Int) = d.exp ∧
      decToString d = String.mk ((if d.sign then ['-'] else []) ++
        ((ip ++ if dot then '.' :: fp else []) ++
          (match ex with
           | none => []
           | some m => 'E' :: (if m < 0 then '-' :: natRepr m.natAbs
                               else '+' :: natRepr m.natAbs)))) := by
  by_cases hsci : d.exp ≤ 0 ∧ -6 < d.exp + ((natRepr d.coeff).length : Int)
  · have hexp_neg : d.exp < 0 := lt_of_le_of_ne hsci.1 h
    by_cases hdp : d.exp + ((natRepr d.coeff).length : Int) ≤ 0
    · refine ⟨['0'],
        List.replicate (-(d.exp + ((natRepr d.coeff).length : Int))).toNat '0' ++
          natRepr d.coeff, true, none, ?_, ?_, ?_, ?_, ?_, ?_, ?_, ?_⟩
      · intro c hc
        rw [List.mem_singleton.mp hc]
        decide
      · intro c hc
        rcases List.mem_append.mp hc with h' | h'
        · rw [List.eq_of_mem_replicate h']
          decide
        · exact natRepr_all_digits _ c h'
      · simp
      · intro hf
        exact absurd hf (by simp)
      · exact Or.inl rfl
      · rw [List.singleton_append]
        rw [show ('0' :: (List.replicate (-(d.exp + ((natRepr d.coeff).length : Int))).toNat '0' ++
            natRepr d.coeff)) =
          List.replicate ((-(d.exp + ((natRepr d.coeff).length : Int))).toNat + 1) '0' ++
            natRepr d.coeff from by rw [List.replicate_succ, List.cons_append]]
        rw [digitsToNat_replicate_zero, digitsToNat_natRepr]
      · have hk : ((-(d.exp + ((natRepr d.coeff).length : Int))).toNat : Int) =
            -(d.exp + ((natRepr d.coeff).length : Int)) :=
          Int.toNat_of_nonneg (by omega)
        simp only [Option.getD_none, List.length_append, List.length_replicate]
        push_cast
        omega
      · simp only [decToString]
        rw [if_pos hsci, if_pos hdp, if_pos rfl]
        simp
    · have hlt : d.exp + ((natRepr d.coeff).length : Int) <
          ((natRepr d.coeff).length : Int) := by omega
      have hk : (((d.exp + ((natRepr d.coeff).length : Int)).toNat : Int)) =
          d.exp + ((natRepr d.coeff).length : Int) := Int.toNat_of_nonneg (by omega)
      have hkle : (d.exp + ((natRepr d.coeff).length : Int)).toNat <
          (natRepr d.coeff).length := by omega
      refine ⟨(natRepr d.coeff).take (d.exp + ((natRepr d.coeff).length : Int)).toNat,
        (natRepr d.coeff).drop (d.exp + ((natRepr d.coeff).length : Int)).toNat,
        true, none, ?_, ?_, ?_, ?_, ?_, ?_, ?_, ?_⟩
      · intro c hc
        exact natRepr_all_digits _ c (List.take_subset _ _ hc)
      · intro c hc
        exact natRepr_all_digits _ c (List.drop_subset _ _ hc)
      · have hpos : 0 < ((natRepr d.coeff).take
            (d.exp + ((natRepr d.coeff).length : Int)).toNat).length := by
          rw [List.length_take]
          omega
        exact List.ne_nil_of_length_pos hpos
      · intro hf
        exact absurd hf (by simp)
      · exact Or.inl rfl
      · rw [List.take_append_drop, digitsToNat_natRepr]
      · simp only [Option.getD_none, List.length_drop]
        omega
      · simp only [decToString]
        rw [if_pos hsci]
        rw [if_neg (show ¬(d.exp + ((natRepr d.coeff).length : Int) ≤ 0) from hdp)]
        rw [if_neg (show ¬(((natRepr d.coeff).length : Int) ≤
          d.exp + ((natRepr d.coeff).length : Int)) from by omega)]
        rw [if_pos rfl]
        simp
  · have hne1 : d.exp + ((natRepr d.coeff).length : Int) ≠ 1 := by
      have hlen0 : 1 ≤ (natRepr d.coeff).length :=
        List.length_pos.mpr (natRepr_ne_nil d.coeff)
      rcases not_and_or.mp hsci with h1 | h2
      · omega
      · omega
    by_cases hlen : ((natRepr d.coeff).length : Int) ≤ 1
    · have hlen1 : (natRepr d.coeff).length = 1 := by
        have hlen0 : 1 ≤ (natRepr d.coeff).length :=
          List.length_pos.mpr (natRepr_ne_nil d.coeff)
        omega
      refine ⟨natRepr d.coeff, [], false,
        some (d.exp + ((natRepr d.coeff).length : Int) - 1), ?_, ?_, ?_, ?_, ?_, ?_, ?_, ?_⟩
      · exact natRepr_all_digits _
      · intro c hc
        exact absurd hc (by simp)
      · exact natRepr_ne_nil _
      · intro _
        rfl
      · exact Or.inr (by simp)
      · rw [List.append_nil, digitsToNat_natRepr]
      · simp only [Option.getD_some, List.length_nil]
        omega
      · simp only [decToString]
        rw [if_neg hsci, if_neg (by omega : ¬((1 : Int) ≤ 0)), if_pos hlen, if_neg hne1]
        rw [hlen1]
        simp
    · refine ⟨(natRepr d.coeff).take 1, (natRepr d.coeff).drop 1, true,
        some (d.exp + ((natRepr d.coeff).length : Int) - 1), ?_, ?_, ?_, ?_, ?_, ?_, ?_, ?_⟩
      · intro c hc
        exact natRepr_all_digits _ c (List.take_subset _ _ hc)
      · intro c hc
        exact natRepr_all_digits _ c (List.drop_subset _ _ hc)
      · have hpos : 0 < ((natRepr d.coeff).take 1).length := by
          rw [List.length_take]
          have hlen0 : 1 ≤ (natRepr d.coeff).length :=
            List.length_pos.mpr (natRepr_ne_nil d.coeff)
          omega
        exact List.ne_nil_of_length_pos hpos
      · intro hf
        exact absurd hf (by simp)
      · exact Or.inl rfl
      · rw [List.take_append_drop, digitsToNat_natRepr]
      · simp only [Option.getD_some, List.length_drop]
        omega
      · simp only [decToString]
        rw [if_neg hsci, if_neg (by omega : ¬((1 : Int) ≤ 0)), if_neg hlen, if_neg hne1]
        simp

/-- `int()` applied to a string built from a character list. -/
theorem pyIntParse_mk (L : List Char) : pyIntParse (String.mk L) = pyIntParseList L := rfl

/-- Round trip: `Decimal(str(d))` re-parses to `d` itself whenever
`d`'s exponent is nonzero. -/
theorem pyDecParse_decToString (d : Dec) (h : d.exp ≠ 0) :
    pyDecParse (decToString d) = some d := by
  obtain ⟨ip, fp, dot, ex, hip, hfp, hne, hdot, _, hco, hex, hstr⟩ := decToString_shape d h
  rw [hstr, pyDecParse_build d.sign ip fp dot ex hip hfp hne hdot, hco, hex]

/-- `int(str(d))` fails for a `Decimal` with nonzero exponent, since its
string form contains a point or an exponent marker. -/
theorem pyIntParse_decToString_none (d : Dec) (h : d.exp ≠ 0) :
    pyIntParse (decToString d) = none := by
  obtain ⟨ip, fp, dot, ex, hip, hfp, hne, hdot, hmark, _, _, hstr⟩ := decToString_shape d h
  rw [hstr, pyIntParse_mk]
  rcases hmark with hd | hex
  · exact pyIntParseList_none '.' (by simp [hd]) (by decide) (by decide) (by decide)
  · cases ex with
    | none => exact absurd rfl hex
    | some m =>
      exact pyIntParseList_none 'E' (by simp) (by decide) (by decide) (by decide)

/-- For exponent 0 the `Decimal` prints as a bare integer literal, so
`int(str(d))` succeeds with the signed coefficient. -/
theorem pyIntParse_decToString_exp_zero (d : Dec) (h : d.exp = 0) :
    pyIntParse (decToString d) =
      some (if d.sign then -(d.coeff : Int) else (d.coeff : Int)) := by
  obtain ⟨sg, co, ex⟩ := d
  simp only at h
  subst h
  have hlen0 : 1 ≤ (natRepr co).length := List.length_pos.mpr (natRepr_ne_nil co)
  have hstr : decToString ⟨sg, co, 0⟩ =
      String.mk ((if sg then ['-'] else []) ++ natRepr co) := by
    simp only [decToString]
    rw [if_pos (show (0 : Int) ≤ 0 ∧ -6 < (0 : Int) + ((natRepr co).length : Int) from
      ⟨le_refl 0, by omega⟩)]
    rw [if_neg (show ¬((0 : Int) + ((natRepr co).length : Int) ≤ 0) from by omega)]
    rw [if_pos (show ((natRepr co).length : Int) ≤ (0 : Int) + ((natRepr co).length : Int) from
      by omega)]
    rw [if_pos rfl]
    simp
  rw [hstr, pyIntParse_mk]
  cases sg with
  | false =>
    rw [if_neg (by simp), List.nil_append, pyIntParseList_natRepr]
    simp
  | true =>
    rw [if_pos rfl]
    rw [show (['-'] ++ natRepr co) = '-' :: natRepr co from rfl, pyIntParseList_neg_natRepr]
    simp

/-- Inversion: `castNum` returned an int, so the int parse succeeded. -/
theorem castNum_vInt {s : String} {n : Int} (h : ConfigData.castNum s = .vInt n) :
    pyIntParse s = some n := by
  unfold ConfigData.castNum at h
  cases hp : pyIntParse s with
  | some i =>
    rw [hp] at h
    simpa using h
  | none =>
    rw [hp] at h
    cases hd : pyDecParse s with
    | some d => rw [hd] at h; exact absurd h (by simp)
    | none => rw [hd] at h; exact absurd h (by simp)

/-- Inversion: `castNum` returned a Decimal, so the int parse failed and
the decimal parse succeeded. -/
theorem castNum_vDec {s : String} {d : Dec} (h : ConfigData.castNum s = .vDec d) :
    pyIntParse s = none ∧ pyDecParse s = some d := by
  unfold ConfigData.castNum at h
  cases hp : pyIntParse s with
  | some i => rw [hp] at h; exact absurd h (by simp)
  | none =>
    rw [hp] at h
    cases hd : pyDecParse s with
    | some d' =>
      rw [hd] at h
      have hdd : d' = d := by simpa using h
      exact ⟨rfl, congrArg some hdd⟩
    | none => rw [hd] at h; exact absurd h (by simp)

/-- Inversion: `castNum` fell through to the string case, returning the
input itself. -/
theorem castNum_vStr {s t : String} (h : ConfigData.castNum s = .vStr t) : t = s := by
  unfold ConfigData.castNum at h
  cases hp : pyIntParse s with
  | some i => rw [hp] at h; exact absurd h (by simp)
  | none =>
    rw [hp] at h
    cases hd : pyDecParse s with
    | some d => rw [hd] at h; exact absurd h (by simp)
    | none =>
      rw [hd] at h
      exact (by simpa using h.symm)


/-- C7 (amended): `castNum` tries an integer parse, then a decimal parse,
then keeps the string: `"25"` becomes the int 25, `"0.10"` the decimal
with digits 10 and exponent −2 (i.e. 0.10), `"B"` the string `"B"`; and
re-casting the stringified result returns the same typed value whenever
the first cast gave an int, a string, or a decimal with nonzero
exponent.  A decimal with exponent 0 stringifies to a bare integer
literal, so the re-cast returns the numerically equal int instead (see
the counterexample). -/
theorem c7_castNum_types_and_roundtrip :
    ConfigData.castNum "25" = .vInt 25 ∧
    ConfigData.castNum "0.10" = .vDec ⟨false, 10, -2⟩ ∧
    ConfigData.castNum "B" = .vStr "B" ∧
    ConfigData.castNum (valToString (ConfigData.castNum "25")) = ConfigData.castNum "25" ∧
    ConfigData.castNum (valToString (ConfigData.castNum "0.10")) = ConfigData.castNum "0.10" ∧
    ConfigData.castNum (valToString (ConfigData.castNum "B")) = ConfigData.castNum "B" ∧
    (∀ (s : String) (n : Int), ConfigData.castNum s = .vInt n →
      ConfigData.castNum (valToString (ConfigData.castNum s)) = ConfigData.castNum s) ∧
    (∀ (s t : String), ConfigData.castNum s = .vStr t →
      ConfigData.castNum (valToString (ConfigData.castNum s)) = ConfigData.castNum s) ∧
    (∀ (s : String) (d : Dec), ConfigData.castNum s = .vDec d → d.exp ≠ 0 →
      ConfigData.castNum (valToString (ConfigData.castNum s)) = ConfigData.castNum s) ∧
    (∀ (s : String) (d : Dec), ConfigData.castNum s = .vDec d → d.exp = 0 →
      ConfigData.castNum (valToString (ConfigData.castNum s)) =
        .vInt (if d.sign then -(d.coeff : Int) else (d.coeff : Int))) := by
  refine ⟨by decide, by decide, by decide, by decide, by decide, by decide, ?_, ?_, ?_, ?_⟩
  · intro s n h
    rw [h]
    show ConfigData.castNum (pyIntToString n) = Value.vInt n
    unfold ConfigData.castNum
    rw [pyIntParse_pyIntToString]
  · intro s t h
    obtain rfl := castNum_vStr h
    rw [h]
    exact h
  · intro s d h hne
    rw [h]
    show ConfigData.castNum (decToString d) = Value.vDec d
    unfold ConfigData.castNum
    rw [pyIntParse_decToString_none d hne, pyDecParse_decToString d hne]
  · intro s d h hz
    rw [h]
    show ConfigData.castNum (decToString d) = _
    unfold ConfigData.castNum
    rw [pyIntParse_decToString_exp_zero d hz]

/-- Counterexample to C7 as stated: `castNum("2.5e1")` is the decimal
25 (exponent 0), whose string form is the bare literal `"25"`;
re-casting that yields the int 25, a different typed value — re-casting
the stringified result does not always return the same typed value. -/
theorem c7_exp_zero_roundtrip_counterexample :
    ConfigData.castNum "2.5e1" = .vDec ⟨false, 25, 0⟩ ∧
    valToString (ConfigData.castNum "2.5e1") = "25" ∧
    ConfigData.castNum (valToString (ConfigData.castNum "2.5e1")) = .vInt 25 ∧
    Value.vInt 25 ≠ Value.vDec ⟨false, 25, 0⟩ := by
  refine ⟨by decide, by decide, by decide, by decide⟩
